import Mathlib

/-!
Shallow embedding of `packages/ember-data/lib/system/record_arrays/many_array.js`.

`DS.ManyArray` is an ordered collection of child-record identifiers (client
ids) representing the "many" side of a one-to-many association.  Structural
edits are bracketed by two hooks (`arrayContentWillChange`,
`arrayContentDidChange`) that queue `DS.OneToManyLink` objects describing each
touched child's parent transition and flush them once the underlying splice
has fully applied.

Modelling choices:
* Records, owners and child entities are identified by natural numbers; a
  record's mutable fields (its belongs-to attributes) live in a global state.
* JavaScript's three-valued fields (`undefined` / `null` / object) are
  modelled with nested `Option`: `none` is `undefined`, `some none` is
  `null`, `some (some r)` is a reference to record `r`.
* `Ember.OrderedSet` is modelled as a duplicate-free list in insertion order
  (`orderedSetAdd` is a no-op when the key is already present).
* The parts of ember-data that `many_array.js` calls but that are outside the
  analysed excerpt (`DS.OneToManyLink.forChildAndParent`, `link.sync()`,
  `DS.inverseNameFor`, the base `RecordArray`/`ArrayProxy` machinery) are
  modelled from the spec; each such definition carries a doc comment saying
  so.
-/

set_option linter.unusedVariables false

/-- Association-list lookup (leftmost binding wins), used for every map in the
state: record registry, client-id index, memoized link table, attributes. -/
def lookupA {α β : Type} [DecidableEq α] : List (α × β) → α → Option β
  | [], _ => none
  | (k, v) :: rest, key => if k = key then some v else lookupA rest key

/-- Association-list update: overwrite the binding for `key`, or append a new
binding when absent. -/
def updateA {α β : Type} [DecidableEq α] : List (α × β) → α → β → List (α × β)
  | [], key, v => [(key, v)]
  | (k, w) :: rest, key, v =>
    if k = key then (key, v) :: rest else (k, w) :: updateA rest key v

/-- A loaded record: its store-assigned `clientId`, its constructor (model
class, as a numeric tag), and its belongs-to attributes (field name to
current value, `none` = null). -/
structure Record where
  clientId : Nat
  ctor : Nat
  attrs : List (String × Option Nat)
deriving Repr, DecidableEq

/-- One `DS.OneToManyLink`: `hasManyName` is the relationship name;
`oldParent` / `newParent` record the transition.  Outer `none` is
JavaScript's `undefined` (never assigned), `some none` is `null`. -/
structure Link where
  hasManyName : Option String
  oldParent : Option (Option Nat)
  newParent : Option (Option Nat)
deriving Repr, DecidableEq

/-- A freshly created link: no field has been assigned yet. -/
def newLink : Link := { hasManyName := none, oldParent := none, newParent := none }

/-- Modelled from the spec: `link.sync()` belongs to the external
`DS.OneToManyLink` collaborator.  A reconciliation event records which link
was reconciled (child, parent, the link's state) and the array membership the
reconciliation observed at the moment of the call. -/
structure SyncEvent where
  child : Nat
  parent : Nat
  link : Link
  contentAtSync : List Nat
deriving Repr, DecidableEq

/-- Global mutable state outside one `ManyArray`: the record registry (record
id to record), the store's client-id index (client id to record id), the
memoized link table keyed by (child, parent), the log of reconciliation
events, and the inverse-name registry. -/
structure DSState where
  records : List (Nat × Record)
  clientIdIndex : List (Nat × Nat)
  links : List ((Nat × Nat) × Link)
  syncLog : List SyncEvent
  inverseNames : List ((Nat × Nat) × String)
deriving Repr, DecidableEq

/-- The `DS.ManyArray` instance state: `owner` (the record owning the
association), `name` (the has-many's name on the owner), `type` (the optional
element-type constraint, as a constructor tag), `content` (the ordered list
of child client ids), `initted` (`this._initted`), and `linksToSync`
(`this._linksToSync`; `none` models the property being still `undefined`
before `init` assigns it, `some s` the allocated ordered set). -/
structure ManyArray where
  owner : Nat
  name : String
  type : Option Nat
  content : List Nat
  initted : Bool
  linksToSync : Option (List (Nat × Nat))
deriving Repr, DecidableEq

/-- A `ManyArray` as the base-class initializer sees it: `_initted` and
`_linksToSync` are both still unassigned (the source's `init` sets them only
after `this._super.apply(this, arguments)` returns). -/
def newManyArray (owner : Nat) (name : String) (t : Option Nat)
    (content : List Nat) : ManyArray :=
  { owner := owner, name := name, type := t, content := content,
    initted := false, linksToSync := none }

/-- The tail of the source's `init`: after the state manager is attached and
the base initializer has run, set `this._initted = true` and allocate the
empty `this._linksToSync` ordered set. -/
def ManyArray.finishInit (arr : ManyArray) : ManyArray :=
  { arr with initted := true, linksToSync := some [] }

/-- `Ember.OrderedSet.add`: insertion-ordered, set-semantics (adding a
present member is a no-op). -/
def orderedSetAdd (s : List (Nat × Nat)) (k : Nat × Nat) : List (Nat × Nat) :=
  if k ∈ s then s else s ++ [k]

/-- The pending-link set viewed as a list (empty when not yet allocated). -/
def pendingOf (arr : ManyArray) : List (Nat × Nat) :=
  arr.linksToSync.getD []

/-- `this._linksToSync.add(link)`, keyed by (child, parent). -/
def addPending (arr : ManyArray) (k : Nat × Nat) : ManyArray :=
  { arr with linksToSync := arr.linksToSync.map (fun s => orderedSetAdd s k) }

/-- Modelled from the spec: `this.objectAt(i)` resolves the client id at
position `i` of `content` to its record through the store (the base
`RecordArray.objectAtContent` is outside the excerpt). -/
def objectAt (st : DSState) (arr : ManyArray) (i : Nat) : Option Nat :=
  match arr.content[i]? with
  | some cid => lookupA st.clientIdIndex cid
  | none => none

/-- Modelled from the spec: `DS.OneToManyLink.forChildAndParent(child,
parent)` obtains-or-creates the link memoized by the (child, parent) pair. -/
def forChildAndParent (st : DSState) (child parent : Nat) : Link × DSState :=
  match lookupA st.links (child, parent) with
  | some l => (l, st)
  | none => (newLink, { st with links := updateA st.links (child, parent) newLink })

/-- Write back the (mutated-in-place in JavaScript) link object keyed by
(child, parent). -/
def setLink (st : DSState) (child parent : Nat) (l : Link) : DSState :=
  { st with links := updateA st.links (child, parent) l }

/-- Loop body of `arrayContentWillChange` for one removed position `pos`:
resolve the child, obtain-or-create its link, set `hasManyName`, set
`oldParent = owner` only when it is still `undefined`, unconditionally set
`newParent = null`, and add the link to the pending set.  An unresolvable
position is skipped (the claims only concern resolvable positions). -/
def touchRemoved (owner : Nat) (nm : String) (p : DSState × ManyArray)
    (pos : Nat) : DSState × ManyArray :=
  match objectAt p.1 p.2 pos with
  | none => p
  | some rid =>
    let pr := forChildAndParent p.1 rid owner
    let l1 := { pr.1 with hasManyName := some nm }
    let l2 := if l1.oldParent = (none : Option (Option Nat)) then { l1 with oldParent := some (some owner) } else l1
    let l3 := { l2 with newParent := some none }
    (setLink pr.2 rid owner l3, addPending p.2 (rid, owner))

/-- Loop body of `arrayContentDidChange` for one added position `pos`:
resolve the child, obtain-or-create its link, set `hasManyName`,
unconditionally set `newParent = owner`, and add the link to the pending
set. -/
def touchAdded (owner : Nat) (nm : String) (p : DSState × ManyArray)
    (pos : Nat) : DSState × ManyArray :=
  match objectAt p.1 p.2 pos with
  | none => p
  | some rid =>
    let pr := forChildAndParent p.1 rid owner
    let l1 := { pr.1 with hasManyName := some nm }
    let l2 := { l1 with newParent := some (some owner) }
    (setLink pr.2 rid owner l2, addPending p.2 (rid, owner))

/-- `arrayContentWillChange(index, removed, added)`: when `_initted`, run the
removal loop over positions `[index, index+removed)` of the still-unspliced
content; otherwise pure delegation to the base class (no effect here). -/
def arrayContentWillChange (st : DSState) (arr : ManyArray)
    (index removed added : Nat) : DSState × ManyArray :=
  if arr.initted then
    ((List.range removed).map (fun k => index + k)).foldl
      (touchRemoved arr.owner arr.name) (st, arr)
  else (st, arr)

/-- `link.sync()` on the link keyed `k`: append a reconciliation event
recording the link's current state and the array's current membership. -/
def syncLink (st : DSState) (arr : ManyArray) (k : Nat × Nat) : DSState :=
  match lookupA st.links k with
  | some l =>
    { st with syncLog := st.syncLog ++ [{ child := k.1, parent := k.2, link := l, contentAtSync := arr.content }] }
  | none => st

/-- The error the JavaScript engine raises when `arrayContentDidChange` runs
before `init` has assigned `this._linksToSync`. -/
def undefinedPendingSetMsg : String :=
  "TypeError: Cannot call method 'forEach' of undefined"

/-- The `_initted`-guarded addition loop of `arrayContentDidChange`, over
positions `[index, index+added)` of the already-spliced content. -/
def didChangeLoop (st : DSState) (arr : ManyArray) (index added : Nat) :
    DSState × ManyArray :=
  if arr.initted then
    ((List.range added).map (fun k => index + k)).foldl
      (touchAdded arr.owner arr.name) (st, arr)
  else (st, arr)

/-- `arrayContentDidChange(index, removed, added)`: when `_initted`, run the
addition loop; then — unconditionally, outside the `_initted` guard —
`this._linksToSync.forEach(function(link) \x7b link.sync(); \x7d)` and
`this._linksToSync.clear()`.  When `_linksToSync` is still `undefined` the
`forEach` access faults. -/
def arrayContentDidChange (st : DSState) (arr : ManyArray)
    (index removed added : Nat) : Except String (DSState × ManyArray) :=
  match (didChangeLoop st arr index added).2.linksToSync with
  | none => .error undefinedPendingSetMsg
  | some pend =>
    .ok (pend.foldl (fun acc k => syncLink acc (didChangeLoop st arr index added).2 k)
          (didChangeLoop st arr index added).1,
        { (didChangeLoop st arr index added).2 with linksToSync := some [] })

/-- The assertion message of `replaceContent`'s type check. -/
def wrongTypeMsg : String :=
  "You can only add records of the configured type to this association."

/-- The error raised when an added argument is not a known record.  (In
JavaScript the caller always passes live record objects; theorems assume all
added records exist.) -/
def unknownRecordMsg : String := "unknown record"

/-- The `added.map` of `replaceContent`: for each added record, in order,
assert that its constructor equals the configured `type` (when one is
configured) and map it to its `clientId`; the first failing assertion aborts
the whole call. -/
def mapAddedRecords (st : DSState) (t : Option Nat) :
    List Nat → Except String (List Nat)
  | [] => .ok []
  | r :: rs =>
    match lookupA st.records r with
    | none => .error unknownRecordMsg
    | some rec =>
      if t = none ∨ t = some rec.ctor then
        match mapAddedRecords st t rs with
        | .ok cids => .ok (rec.clientId :: cids)
        | .error e => .error e
      else .error wrongTypeMsg

/-- The base splice on the raw identifier list. -/
def spliceList (l : List Nat) (index removed : Nat) (added : List Nat) : List Nat :=
  l.take index ++ added ++ l.drop (index + removed)

/-- The state after the pre-change hook has run and the base splice has been
applied to `content`, for the mapped client ids `cids`. -/
def afterSplice (st : DSState) (arr : ManyArray) (index removed : Nat)
    (cids : List Nat) : DSState × ManyArray :=
  ((arrayContentWillChange st arr index removed cids.length).1,
   { (arrayContentWillChange st arr index removed cids.length).2 with
      content := spliceList (arrayContentWillChange st arr index removed cids.length).2.content
        index removed cids })

/-- `replaceContent(index, removed, added)`, composed with what its
`this._super` call performs (modelled from the spec: the base ordered
collection fires the pre-change hook, applies the splice, then fires the
post-change hook): map the added records to client ids under the type
assertion, then run `arrayContentWillChange`, the splice, and
`arrayContentDidChange`. -/
def replaceContent (st : DSState) (arr : ManyArray) (index removed : Nat)
    (added : List Nat) : Except String (DSState × ManyArray) :=
  match mapAddedRecords st arr.type added with
  | .error e => .error e
  | .ok cids =>
    arrayContentDidChange (afterSplice st arr index removed cids).1
      (afterSplice st arr index removed cids).2 index removed cids.length

/-- Modelled from the spec: `DS.inverseNameFor(record, ownerConstructor,
'belongsTo')` is a registry lookup from (the child's type, the owner's type)
to the name of the child's inverse belongs-to field, `none` when no inverse
field is declared. -/
def inverseNameForOf (st : DSState) (rid owner : Nat) : Option String :=
  match lookupA st.records rid, lookupA st.records owner with
  | some r, some o => lookupA st.inverseNames (r.ctor, o.ctor)
  | _, _ => none

/-- `get(record, fieldName)` on a belongs-to field: `none` when the record or
field is unknown (JavaScript `undefined`), `some none` for null, `some (some
p)` for a parent reference. -/
def lookupAttr (st : DSState) (rid : Nat) (n : String) : Option (Option Nat) :=
  match lookupA st.records rid with
  | some r => lookupA r.attrs n
  | none => none

/-- `set(record, fieldName, v)`: update the record's attribute in the
registry (no-op on an unknown record). -/
def setAttr (st : DSState) (rid : Nat) (n : String) (v : Option Nat) : DSState :=
  match lookupA st.records rid with
  | some r =>
    { st with records := updateA st.records rid { r with attrs := updateA r.attrs n v } }
  | none => st

/-- `assignInverse(record)`: look up the inverse belongs-to field name; when
one is declared, read its current value and set it to `owner` unless it
already equals `owner`; return the previous value (JavaScript `undefined`,
i.e. `none`, when no inverse field is declared). -/
def assignInverse (st : DSState) (arr : ManyArray) (rid : Nat) :
    Option (Option Nat) × DSState :=
  match inverseNameForOf st rid arr.owner with
  | some n =>
    let currentInverse := lookupAttr st rid n
    if currentInverse = some (some arr.owner) then (currentInverse, st)
    else (currentInverse, setAttr st rid n (some arr.owner))
  | none => (none, st)

/-- `removeInverse(record)`: look up the inverse belongs-to field name; when
one is declared and its current value equals `owner`, clear it to null;
otherwise do nothing. -/
def removeInverse (st : DSState) (arr : ManyArray) (rid : Nat) : DSState :=
  match inverseNameForOf st rid arr.owner with
  | some n =>
    if lookupAttr st rid n = some (some arr.owner) then setAttr st rid n none
    else st
  | none => st

/-- `removeFromContent(record)`: `get(this, 'content').removeObject(clientId)`.
Modelled from the spec: the direct content manipulation bypasses
`replaceContent` and the two mutation hooks entirely (`Ember.removeObject`
removes every occurrence of the identifier).  The global state is returned
untouched: the method performs no record or link write. -/
def removeFromContent (st : DSState) (arr : ManyArray) (rid : Nat) :
    DSState × ManyArray :=
  match lookupA st.records rid with
  | some rec =>
    (st, { arr with content := arr.content.filter (fun cid => cid ≠ rec.clientId) })
  | none => (st, arr)

/-- `addToContent(record)`: `get(this, 'content').addObject(clientId)`.
Modelled from the spec: bypasses the hooks; `Ember.addObject` appends the
identifier only when it is not already present. -/
def addToContent (st : DSState) (arr : ManyArray) (rid : Nat) :
    DSState × ManyArray :=
  match lookupA st.records rid with
  | some rec =>
    (st, { arr with content :=
      if rec.clientId ∈ arr.content then arr.content else arr.content ++ [rec.clientId] })
  | none => (st, arr)

/-- The value `oldParent` holds after a removal touch, as a function of the
link's state before the touch: assigned to `owner` when it was still
`undefined` (link absent or field never set), preserved otherwise. -/
def specOldV (o : Nat) (ol : Option Link) : Option Nat :=
  match ol with
  | none => some o
  | some l =>
    match l.oldParent with
    | none => some o
    | some w => w

/-! ### Association-list lemmas -/

theorem lookupA_updateA_self {α β : Type} [DecidableEq α] (l : List (α × β)) (k : α) (v : β) :
    lookupA (updateA l k v) k = some v := by
  induction l with
  | nil => simp [updateA, lookupA]
  | cons h t ih =>
    obtain ⟨k', w⟩ := h
    by_cases hk : k' = k <;> simp [updateA, lookupA, hk, ih]

theorem lookupA_updateA_ne {α β : Type} [DecidableEq α] (l : List (α × β)) {k k' : α} (v : β)
    (h : k' ≠ k) : lookupA (updateA l k v) k' = lookupA l k' := by
  induction l with
  | nil => simp [updateA, lookupA, Ne.symm h]
  | cons hd t ih =>
    obtain ⟨a, w⟩ := hd
    by_cases ha : a = k
    · subst ha
      simp [updateA, lookupA, Ne.symm h]
    · simp [updateA, lookupA, ha, ih]

/-! ### Generic fold preservation -/

theorem foldl_pres {σ : Type} {f : σ → Nat → σ} {P : σ → Prop}
    (hstep : ∀ p pos, P p → P (f p pos)) :
    ∀ (L : List Nat) (p : σ), P p → P (L.foldl f p) := by
  intro L
  induction L with
  | nil => intro p hp; exact hp
  | cons a t ih => intro p hp; exact ih (f p a) (hstep p a hp)

/-! ### Frame lemmas for the hook loop bodies -/

theorem forChildAndParent_snd (st : DSState) (c o : Nat) :
    (forChildAndParent st c o).2.records = st.records ∧
    (forChildAndParent st c o).2.clientIdIndex = st.clientIdIndex ∧
    (forChildAndParent st c o).2.syncLog = st.syncLog ∧
    (forChildAndParent st c o).2.inverseNames = st.inverseNames := by
  unfold forChildAndParent
  cases lookupA st.links (c, o) <;> simp

theorem touchRemoved_frame (o : Nat) (nm : String) (p : DSState × ManyArray) (pos : Nat) :
    (touchRemoved o nm p pos).1.records = p.1.records ∧
    (touchRemoved o nm p pos).1.clientIdIndex = p.1.clientIdIndex ∧
    (touchRemoved o nm p pos).1.syncLog = p.1.syncLog ∧
    (touchRemoved o nm p pos).2.owner = p.2.owner ∧
    (touchRemoved o nm p pos).2.name = p.2.name ∧
    (touchRemoved o nm p pos).2.type = p.2.type ∧
    (touchRemoved o nm p pos).2.content = p.2.content ∧
    (touchRemoved o nm p pos).2.initted = p.2.initted ∧
    (touchRemoved o nm p pos).2.linksToSync.isSome = p.2.linksToSync.isSome := by
  unfold touchRemoved
  cases hobj : objectAt p.1 p.2 pos with
  | none => simp
  | some rid =>
    obtain ⟨h1, h2, h3, h4⟩ := forChildAndParent_snd p.1 rid o
    simp [setLink, addPending, h1, h2, h3]

theorem touchAdded_frame (o : Nat) (nm : String) (p : DSState × ManyArray) (pos : Nat) :
    (touchAdded o nm p pos).1.records = p.1.records ∧
    (touchAdded o nm p pos).1.clientIdIndex = p.1.clientIdIndex ∧
    (touchAdded o nm p pos).1.syncLog = p.1.syncLog ∧
    (touchAdded o nm p pos).2.owner = p.2.owner ∧
    (touchAdded o nm p pos).2.name = p.2.name ∧
    (touchAdded o nm p pos).2.type = p.2.type ∧
    (touchAdded o nm p pos).2.content = p.2.content ∧
    (touchAdded o nm p pos).2.initted = p.2.initted ∧
    (touchAdded o nm p pos).2.linksToSync.isSome = p.2.linksToSync.isSome := by
  unfold touchAdded
  cases hobj : objectAt p.1 p.2 pos with
  | none => simp
  | some rid =>
    obtain ⟨h1, h2, h3, h4⟩ := forChildAndParent_snd p.1 rid o
    simp [setLink, addPending, h1, h2, h3]

theorem objectAt_congr {st st' : DSState} {arr arr' : ManyArray}
    (hidx : st'.clientIdIndex = st.clientIdIndex) (hcon : arr'.content = arr.content)
    (i : Nat) : objectAt st' arr' i = objectAt st arr i := by
  unfold objectAt
  rw [hidx, hcon]

theorem objectAt_touchRemoved (o : Nat) (nm : String) (p : DSState × ManyArray)
    (pos i : Nat) :
    objectAt (touchRemoved o nm p pos).1 (touchRemoved o nm p pos).2 i = objectAt p.1 p.2 i := by
  obtain ⟨_, h2, _, _, _, _, h7, _, _⟩ := touchRemoved_frame o nm p pos
  exact objectAt_congr h2 h7 i

theorem objectAt_touchAdded (o : Nat) (nm : String) (p : DSState × ManyArray)
    (pos i : Nat) :
    objectAt (touchAdded o nm p pos).1 (touchAdded o nm p pos).2 i = objectAt p.1 p.2 i := by
  obtain ⟨_, h2, _, _, _, _, h7, _, _⟩ := touchAdded_frame o nm p pos
  exact objectAt_congr h2 h7 i

/-! ### Pending-set lemmas -/

theorem mem_pendingOf_addPending (arr : ManyArray) (k k' : Nat × Nat)
    (h : k ∈ pendingOf arr) : k ∈ pendingOf (addPending arr k') := by
  unfold pendingOf addPending at *
  rcases hls : arr.linksToSync with _ | s
  · simp [hls] at h
  · rw [hls] at h
    simp only [Option.getD_some] at h
    show k ∈ (some (orderedSetAdd s k')).getD []
    simp only [Option.getD_some]
    unfold orderedSetAdd
    split
    · exact h
    · exact List.mem_append_left _ h

theorem mem_pendingOf_addPending_self (arr : ManyArray) (k : Nat × Nat)
    (h : arr.linksToSync.isSome) : k ∈ pendingOf (addPending arr k) := by
  unfold pendingOf addPending
  rcases hls : arr.linksToSync with _ | s
  · rw [hls] at h
    simp at h
  · show k ∈ (some (orderedSetAdd s k)).getD []
    simp only [Option.getD_some]
    unfold orderedSetAdd
    split
    · assumption
    · exact List.mem_append_right _ (List.mem_singleton.mpr rfl)

/-! ### Removal-phase link invariant -/

/-- After the pre-change loop has touched child `c`, its link keyed `(c, o)`
carries the relationship name, `newParent = null`, `oldParent = v`, and sits
in the pending set. -/
def DoneR (o : Nat) (nm : String) (v : Option Nat) (c : Nat)
    (p : DSState × ManyArray) : Prop :=
  ∃ l, lookupA p.1.links (c, o) = some l ∧ l.hasManyName = some nm ∧
    l.newParent = some none ∧ l.oldParent = some v ∧ (c, o) ∈ pendingOf p.2

theorem touchRemoved_isSome (o : Nat) (nm : String) (p : DSState × ManyArray) (pos : Nat) :
    (touchRemoved o nm p pos).2.linksToSync.isSome = p.2.linksToSync.isSome :=
  (touchRemoved_frame o nm p pos).2.2.2.2.2.2.2.2

theorem touchAdded_isSome (o : Nat) (nm : String) (p : DSState × ManyArray) (pos : Nat) :
    (touchAdded o nm p pos).2.linksToSync.isSome = p.2.linksToSync.isSome :=
  (touchAdded_frame o nm p pos).2.2.2.2.2.2.2.2

theorem touchRemoved_lookup_ne (o : Nat) (nm : String) (p : DSState × ManyArray)
    (pos rid c : Nat) (hobj : objectAt p.1 p.2 pos = some rid) (hc : c ≠ rid) :
    lookupA (touchRemoved o nm p pos).1.links (c, o) = lookupA p.1.links (c, o) := by
  have hkey : (c, o) ≠ (rid, o) := by simp [hc]
  unfold touchRemoved
  rw [hobj]
  cases hl : lookupA p.1.links (rid, o) with
  | some l => simp [forChildAndParent, hl, setLink, lookupA_updateA_ne _ _ hkey]
  | none => simp [forChildAndParent, hl, setLink, lookupA_updateA_ne _ _ hkey]

theorem touchAdded_lookup_ne (o : Nat) (nm : String) (p : DSState × ManyArray)
    (pos rid c : Nat) (hobj : objectAt p.1 p.2 pos = some rid) (hc : c ≠ rid) :
    lookupA (touchAdded o nm p pos).1.links (c, o) = lookupA p.1.links (c, o) := by
  have hkey : (c, o) ≠ (rid, o) := by simp [hc]
  unfold touchAdded
  rw [hobj]
  cases hl : lookupA p.1.links (rid, o) with
  | some l => simp [forChildAndParent, hl, setLink, lookupA_updateA_ne _ _ hkey]
  | none => simp [forChildAndParent, hl, setLink, lookupA_updateA_ne _ _ hkey]

theorem touchRemoved_pres_DoneR (o : Nat) (nm : String) (v : Option Nat) (c : Nat)
    (p : DSState × ManyArray) (pos : Nat) (h : DoneR o nm v c p) :
    DoneR o nm v c (touchRemoved o nm p pos) := by
  obtain ⟨l, hl, hnm, hnew, hold, hmem⟩ := h
  cases hobj : objectAt p.1 p.2 pos with
  | none =>
    unfold touchRemoved
    rw [hobj]
    exact ⟨l, hl, hnm, hnew, hold, hmem⟩
  | some rid =>
    by_cases hc : rid = c
    · subst hc
      unfold touchRemoved
      rw [hobj]
      refine ⟨{ l with hasManyName := some nm, newParent := some none }, ?_, rfl, rfl, hold, ?_⟩
      · simp [forChildAndParent, hl, setLink, hold, lookupA_updateA_self]
      · exact mem_pendingOf_addPending p.2 (rid, o) (rid, o) hmem
    · have hne := touchRemoved_lookup_ne o nm p pos rid c hobj (fun hcc => hc hcc.symm)
      refine ⟨l, ?_, hnm, hnew, hold, ?_⟩
      · rw [hne]; exact hl
      · unfold touchRemoved
        rw [hobj]
        exact mem_pendingOf_addPending p.2 (c, o) (rid, o) hmem

theorem touchRemoved_establish (o : Nat) (nm : String) (p : DSState × ManyArray)
    (pos c : Nat) (hobj : objectAt p.1 p.2 pos = some c)
    (hsome : p.2.linksToSync.isSome) :
    DoneR o nm (specOldV o (lookupA p.1.links (c, o))) c (touchRemoved o nm p pos) := by
  unfold touchRemoved
  rw [hobj]
  cases hl : lookupA p.1.links (c, o) with
  | none =>
    refine ⟨{ hasManyName := some nm, oldParent := some (some o), newParent := some none }, ?_, rfl, rfl, ?_, ?_⟩
    · simp [forChildAndParent, hl, setLink, newLink, lookupA_updateA_self]
    · simp [specOldV]
    · exact mem_pendingOf_addPending_self p.2 (c, o) hsome
  | some l =>
    cases holdp : l.oldParent with
    | none =>
      refine ⟨{ l with hasManyName := some nm, oldParent := some (some o), newParent := some none }, ?_, rfl, rfl, ?_, ?_⟩
      · simp [forChildAndParent, hl, setLink, holdp, lookupA_updateA_self]
      · simp [specOldV, holdp]
      · exact mem_pendingOf_addPending_self p.2 (c, o) hsome
    | some w =>
      refine ⟨{ l with hasManyName := some nm, newParent := some none }, ?_, rfl, rfl, ?_, ?_⟩
      · simp [forChildAndParent, hl, setLink, holdp, lookupA_updateA_self]
      · simp [specOldV, holdp]
      · exact mem_pendingOf_addPending_self p.2 (c, o) hsome

theorem touchRemoved_specV (o : Nat) (nm : String) (p : DSState × ManyArray)
    (pos c : Nat) :
    specOldV o (lookupA (touchRemoved o nm p pos).1.links (c, o)) =
      specOldV o (lookupA p.1.links (c, o)) := by
  cases hobj : objectAt p.1 p.2 pos with
  | none =>
    unfold touchRemoved
    rw [hobj]
  | some rid =>
    by_cases hc : rid = c
    · subst hc
      unfold touchRemoved
      rw [hobj]
      cases hl : lookupA p.1.links (rid, o) with
      | none => simp [forChildAndParent, hl, setLink, newLink, lookupA_updateA_self, specOldV]
      | some l =>
        cases holdp : l.oldParent with
        | none => simp [forChildAndParent, hl, setLink, holdp, lookupA_updateA_self, specOldV]
        | some w => simp [forChildAndParent, hl, setLink, holdp, lookupA_updateA_self, specOldV]
    · rw [touchRemoved_lookup_ne o nm p pos rid c hobj (fun hcc => hc hcc.symm)]

theorem foldl_touchRemoved_main (o : Nat) (nm : String) (L : List Nat) :
    ∀ (p : DSState × ManyArray) (pos c : Nat), pos ∈ L →
      objectAt p.1 p.2 pos = some c → p.2.linksToSync.isSome →
      DoneR o nm (specOldV o (lookupA p.1.links (c, o))) c
        (L.foldl (touchRemoved o nm) p) := by
  induction L with
  | nil =>
    intro p pos c hmem
    exact absurd hmem (List.not_mem_nil pos)
  | cons a t ih =>
    intro p pos c hmem hobj hsome
    rw [List.foldl_cons]
    rcases List.mem_cons.mp hmem with he | ht
    · subst he
      exact foldl_pres (fun q pp hq => touchRemoved_pres_DoneR o nm _ c q pp hq) t _
        (touchRemoved_establish o nm p pos c hobj hsome)
    · have hobj2 : objectAt (touchRemoved o nm p a).1 (touchRemoved o nm p a).2 pos = some c := by
        rw [objectAt_touchRemoved]
        exact hobj
      have hsome2 : (touchRemoved o nm p a).2.linksToSync.isSome = true := by
        rw [touchRemoved_isSome]
        exact hsome
      have hmain := ih (touchRemoved o nm p a) pos c ht hobj2 hsome2
      rw [touchRemoved_specV] at hmain
      exact hmain

/-! ### Addition-phase link invariant -/

/-- After the post-change loop has touched child `c`, its link keyed `(c, o)`
carries the relationship name, `newParent = owner`, and sits in the pending
set. -/
def DoneA (o : Nat) (nm : String) (c : Nat) (p : DSState × ManyArray) : Prop :=
  ∃ l, lookupA p.1.links (c, o) = some l ∧ l.hasManyName = some nm ∧
    l.newParent = some (some o) ∧ (c, o) ∈ pendingOf p.2

theorem touchAdded_pres_DoneA (o : Nat) (nm : String) (c : Nat)
    (p : DSState × ManyArray) (pos : Nat) (h : DoneA o nm c p) :
    DoneA o nm c (touchAdded o nm p pos) := by
  obtain ⟨l, hl, hnm, hnew, hmem⟩ := h
  cases hobj : objectAt p.1 p.2 pos with
  | none =>
    unfold touchAdded
    rw [hobj]
    exact ⟨l, hl, hnm, hnew, hmem⟩
  | some rid =>
    by_cases hc : rid = c
    · subst hc
      unfold touchAdded
      rw [hobj]
      refine ⟨{ l with hasManyName := some nm, newParent := some (some o) }, ?_, rfl, rfl, ?_⟩
      · simp [forChildAndParent, hl, setLink, lookupA_updateA_self]
      · exact mem_pendingOf_addPending p.2 (rid, o) (rid, o) hmem
    · have hne := touchAdded_lookup_ne o nm p pos rid c hobj (fun hcc => hc hcc.symm)
      refine ⟨l, ?_, hnm, hnew, ?_⟩
      · rw [hne]; exact hl
      · unfold touchAdded
        rw [hobj]
        exact mem_pendingOf_addPending p.2 (c, o) (rid, o) hmem

theorem touchAdded_establish (o : Nat) (nm : String) (p : DSState × ManyArray)
    (pos c : Nat) (hobj : objectAt p.1 p.2 pos = some c)
    (hsome : p.2.linksToSync.isSome) :
    DoneA o nm c (touchAdded o nm p pos) := by
  unfold touchAdded
  rw [hobj]
  cases hl : lookupA p.1.links (c, o) with
  | none =>
    refine ⟨{ newLink with hasManyName := some nm, newParent := some (some o) }, ?_, rfl, rfl, ?_⟩
    · simp [forChildAndParent, hl, setLink, newLink, lookupA_updateA_self]
    · exact mem_pendingOf_addPending_self p.2 (c, o) hsome
  | some l =>
    refine ⟨{ l with hasManyName := some nm, newParent := some (some o) }, ?_, rfl, rfl, ?_⟩
    · simp [forChildAndParent, hl, setLink, lookupA_updateA_self]
    · exact mem_pendingOf_addPending_self p.2 (c, o) hsome

theorem foldl_touchAdded_main (o : Nat) (nm : String) (L : List Nat) :
    ∀ (p : DSState × ManyArray) (pos c : Nat), pos ∈ L →
      objectAt p.1 p.2 pos = some c → p.2.linksToSync.isSome →
      DoneA o nm c (L.foldl (touchAdded o nm) p) := by
  induction L with
  | nil =>
    intro p pos c hmem
    exact absurd hmem (List.not_mem_nil pos)
  | cons a t ih =>
    intro p pos c hmem hobj hsome
    rw [List.foldl_cons]
    rcases List.mem_cons.mp hmem with he | ht
    · subst he
      exact foldl_pres (fun q pp hq => touchAdded_pres_DoneA o nm c q pp hq) t _
        (touchAdded_establish o nm p pos c hobj hsome)
    · have hobj2 : objectAt (touchAdded o nm p a).1 (touchAdded o nm p a).2 pos = some c := by
        rw [objectAt_touchAdded]
        exact hobj
      have hsome2 : (touchAdded o nm p a).2.linksToSync.isSome = true := by
        rw [touchAdded_isSome]
        exact hsome
      exact ih (touchAdded o nm p a) pos c ht hobj2 hsome2

/-! ### Flush lemmas -/

/-- The reconciliation event the flush produces for pending key `k` (none
when no link is stored under `k`, which never happens for queued keys). -/
def eventFor (st : DSState) (arr : ManyArray) (k : Nat × Nat) : Option SyncEvent :=
  (lookupA st.links k).map
    (fun l => { child := k.1, parent := k.2, link := l, contentAtSync := arr.content })

theorem syncLink_links (st : DSState) (arr : ManyArray) (k : Nat × Nat) :
    (syncLink st arr k).links = st.links := by
  unfold syncLink
  cases lookupA st.links k <;> rfl

theorem syncLink_syncLog (st : DSState) (arr : ManyArray) (k : Nat × Nat) :
    (syncLink st arr k).syncLog = st.syncLog ++ (eventFor st arr k).toList := by
  unfold syncLink eventFor
  cases lookupA st.links k <;> simp

theorem flush_links (arr : ManyArray) (pend : List (Nat × Nat)) :
    ∀ st : DSState, (pend.foldl (fun acc k => syncLink acc arr k) st).links = st.links := by
  induction pend with
  | nil => intro st; rfl
  | cons a t ih =>
    intro st
    rw [List.foldl_cons, ih, syncLink_links]

theorem flush_syncLog (arr : ManyArray) (pend : List (Nat × Nat)) :
    ∀ st : DSState, (pend.foldl (fun acc k => syncLink acc arr k) st).syncLog =
      st.syncLog ++ pend.filterMap (fun k => eventFor st arr k) := by
  induction pend with
  | nil => intro st; simp
  | cons a t ih =>
    intro st
    rw [List.foldl_cons, ih (syncLink st arr a), syncLink_syncLog]
    have hev : ∀ k, eventFor (syncLink st arr a) arr k = eventFor st arr k := by
      intro k
      unfold eventFor
      rw [syncLink_links]
    have hfm : t.filterMap (fun k => eventFor (syncLink st arr a) arr k) =
        t.filterMap (fun k => eventFor st arr k) := by
      apply List.filterMap_congr
      intro k _
      exact hev k
    rw [hfm]
    cases hE : eventFor st arr a <;>
      simp [List.filterMap_cons, hE, List.append_assoc]

/-! ### Hook-level frame -/

/-- The fields the two mutation hooks never touch: the record registry, the
client-id index, the reconciliation log, and the array's scalar fields (both
loops only edit the link table and the pending set). -/
def SameFrame (st : DSState) (arr : ManyArray) (p : DSState × ManyArray) : Prop :=
  p.1.records = st.records ∧ p.1.clientIdIndex = st.clientIdIndex ∧
  p.1.syncLog = st.syncLog ∧ p.2.owner = arr.owner ∧ p.2.name = arr.name ∧
  p.2.type = arr.type ∧ p.2.content = arr.content ∧ p.2.initted = arr.initted ∧
  p.2.linksToSync.isSome = arr.linksToSync.isSome

theorem touchRemoved_sameFrame (st : DSState) (arr : ManyArray) (o : Nat) (nm : String)
    (p : DSState × ManyArray) (pos : Nat) (hp : SameFrame st arr p) :
    SameFrame st arr (touchRemoved o nm p pos) := by
  obtain ⟨f1, f2, f3, f4, f5, f6, f7, f8, f9⟩ := touchRemoved_frame o nm p pos
  obtain ⟨g1, g2, g3, g4, g5, g6, g7, g8, g9⟩ := hp
  exact ⟨f1.trans g1, f2.trans g2, f3.trans g3, f4.trans g4, f5.trans g5,
    f6.trans g6, f7.trans g7, f8.trans g8, f9.trans g9⟩

theorem touchAdded_sameFrame (st : DSState) (arr : ManyArray) (o : Nat) (nm : String)
    (p : DSState × ManyArray) (pos : Nat) (hp : SameFrame st arr p) :
    SameFrame st arr (touchAdded o nm p pos) := by
  obtain ⟨f1, f2, f3, f4, f5, f6, f7, f8, f9⟩ := touchAdded_frame o nm p pos
  obtain ⟨g1, g2, g3, g4, g5, g6, g7, g8, g9⟩ := hp
  exact ⟨f1.trans g1, f2.trans g2, f3.trans g3, f4.trans g4, f5.trans g5,
    f6.trans g6, f7.trans g7, f8.trans g8, f9.trans g9⟩

theorem willChange_sameFrame (st : DSState) (arr : ManyArray)
    (index removed added : Nat) :
    SameFrame st arr (arrayContentWillChange st arr index removed added) := by
  unfold arrayContentWillChange
  split
  · exact foldl_pres (touchRemoved_sameFrame st arr arr.owner arr.name) _ (st, arr)
      ⟨rfl, rfl, rfl, rfl, rfl, rfl, rfl, rfl, rfl⟩
  · exact ⟨rfl, rfl, rfl, rfl, rfl, rfl, rfl, rfl, rfl⟩

theorem didChangeLoop_sameFrame (st : DSState) (arr : ManyArray)
    (index added : Nat) :
    SameFrame st arr (didChangeLoop st arr index added) := by
  unfold didChangeLoop
  split
  · exact foldl_pres (touchAdded_sameFrame st arr arr.owner arr.name) _ (st, arr)
      ⟨rfl, rfl, rfl, rfl, rfl, rfl, rfl, rfl, rfl⟩
  · exact ⟨rfl, rfl, rfl, rfl, rfl, rfl, rfl, rfl, rfl⟩

/-! ### `replaceContent` mapping lemmas -/

theorem mapAddedRecords_ok (st : DSState) (t : Option Nat) :
    ∀ (added : List Nat) (recOf : Nat → Record),
      (∀ r ∈ added, lookupA st.records r = some (recOf r)) →
      (∀ r ∈ added, t = none ∨ t = some (recOf r).ctor) →
      mapAddedRecords st t added = .ok (added.map (fun r => (recOf r).clientId)) := by
  intro added
  induction added with
  | nil =>
    intro recOf _ _
    rfl
  | cons a rest ih =>
    intro recOf hrec htype
    have hca := hrec a (List.mem_cons_self a rest)
    have hta := htype a (List.mem_cons_self a rest)
    have hrest := ih recOf (fun r hr => hrec r (List.mem_cons_of_mem a hr))
      (fun r hr => htype r (List.mem_cons_of_mem a hr))
    simp only [mapAddedRecords, hca, hrest, List.map_cons]
    rw [if_pos hta]

theorem mapAddedRecords_err (st : DSState) (t : Nat) :
    ∀ (added : List Nat) (recOf : Nat → Record),
      (∀ r ∈ added, lookupA st.records r = some (recOf r)) →
      (∃ r ∈ added, (recOf r).ctor ≠ t) →
      mapAddedRecords st (some t) added = .error wrongTypeMsg := by
  intro added
  induction added with
  | nil =>
    intro recOf _ hbad
    obtain ⟨r, hr, _⟩ := hbad
    exact absurd hr (List.not_mem_nil r)
  | cons a rest ih =>
    intro recOf hrec hbad
    have hca := hrec a (List.mem_cons_self a rest)
    by_cases hgood : (recOf a).ctor = t
    · have hbad2 : ∃ r ∈ rest, (recOf r).ctor ≠ t := by
        obtain ⟨r, hr, hne⟩ := hbad
        rcases List.mem_cons.mp hr with he | ht2
        · subst he
          exact absurd hgood hne
        · exact ⟨r, ht2, hne⟩
      have hrest := ih recOf (fun r hr => hrec r (List.mem_cons_of_mem a hr)) hbad2
      have hta : (some t : Option Nat) = none ∨ (some t : Option Nat) = some (recOf a).ctor :=
        Or.inr (by rw [hgood])
      simp only [mapAddedRecords, hca, hrest]
      rw [if_pos hta]
    · have hne : ¬((some t : Option Nat) = none ∨ (some t : Option Nat) = some (recOf a).ctor) := by
        rintro (h | h)
        · exact Option.noConfusion h
        · exact hgood (Option.some.inj h).symm
      simp only [mapAddedRecords, hca]
      rw [if_neg hne]

/-! ### Splice position lemma -/

theorem spliceList_getElem_added (l : List Nat) (index removed : Nat)
    (added : List Nat) (k : Nat) (hidx : index ≤ l.length) (hk : k < added.length) :
    (spliceList l index removed added)[index + k]? = some added[k] := by
  unfold spliceList
  have hlen : (l.take index).length = index := by
    rw [List.length_take]
    exact Nat.min_eq_left hidx
  rw [List.append_assoc, List.getElem?_append_right (by rw [hlen]; exact Nat.le_add_right index k)]
  rw [hlen, Nat.add_sub_cancel_left]
  rw [List.getElem?_append_left hk]
  exact List.getElem?_eq_getElem hk

/-! ### Inverse-helper lemmas -/

theorem inverseNameForOf_records (st : DSState) (rid o : Nat) (n : String)
    (h : inverseNameForOf st rid o = some n) :
    ∃ r, lookupA st.records rid = some r := by
  cases h1 : lookupA st.records rid with
  | none =>
    unfold inverseNameForOf at h
    rw [h1] at h
    simp at h
  | some r => exact ⟨r, rfl⟩

theorem lookupAttr_setAttr_self (st : DSState) (rid : Nat) (n : String)
    (v : Option Nat) (r : Record) (hr : lookupA st.records rid = some r) :
    lookupAttr (setAttr st rid n v) rid n = some v := by
  unfold setAttr lookupAttr
  rw [hr]
  simp [lookupA_updateA_self]

/-! ### Concrete fixtures for the witnesses -/

/-- An owner-side record (a post): client id 100, constructor tag 1. -/
def postRecord : Record := { clientId := 100, ctor := 1, attrs := [] }

/-- A child record (a comment): client id 10, constructor tag 2, its
belongs-to field `post` currently pointing at record 0. -/
def commentRecord : Record := { clientId := 10, ctor := 2, attrs := [("post", some 0)] }

/-- A small concrete world: record 5 is the comment, record 1 the post; the
comment type (2) declares `post` as the inverse towards type 1. -/
def fixState : DSState :=
  { records := [(5, commentRecord), (1, postRecord)],
    clientIdIndex := [(10, 5), (100, 1)],
    links := [], syncLog := [], inverseNames := [((2, 1), "post")] }

/-- An initialized `comments` array owned by record 1 holding the comment. -/
def fixArray : ManyArray :=
  { owner := 1, name := "comments", type := some 2, content := [10],
    initted := true, linksToSync := some [] }

/-- The same array with a type constraint the comment violates. -/
def wrongTypeArray : ManyArray := { fixArray with type := some 3 }

/-- A `ManyArray` inside the initialization window: `_initted` and
`_linksToSync` still unassigned. -/
def preInitArray : ManyArray := newManyArray 1 "comments" none []

/-! ### Claims -/

/-- Claim C1: for every structural edit on an initialized relationship array
removing `removed` elements at `index`, the pre-change hook, for each element
resolved at positions `[index, index+removed)` before the splice, obtains or
creates that child's link keyed to this owner, sets its `hasManyName`, sets
`oldParent = owner` only when `oldParent` is still unset (never overwriting a
previously set `oldParent`), unconditionally sets `newParent = null`, and
adds the link to the pending set. -/
theorem claim1_willChange_links (st : DSState) (arr : ManyArray)
    (index removed added : Nat) (cs : Nat → Nat)
    (hinit : arr.initted = true)
    (halloc : arr.linksToSync.isSome)
    (hres : ∀ k, k < removed → objectAt st arr (index + k) = some (cs k)) :
    ∀ k, k < removed →
      ∃ l, lookupA (arrayContentWillChange st arr index removed added).1.links
            (cs k, arr.owner) = some l ∧
        l.hasManyName = some arr.name ∧
        l.newParent = some none ∧
        l.oldParent = some (specOldV arr.owner (lookupA st.links (cs k, arr.owner))) ∧
        (cs k, arr.owner) ∈ pendingOf (arrayContentWillChange st arr index removed added).2 := by
  intro k hk
  have hmem : index + k ∈ (List.range removed).map (fun j => index + j) :=
    List.mem_map.mpr ⟨k, List.mem_range.mpr hk, rfl⟩
  have h := foldl_touchRemoved_main arr.owner arr.name
    ((List.range removed).map (fun j => index + j)) (st, arr) (index + k) (cs k)
    hmem (hres k hk) halloc
  unfold arrayContentWillChange
  rw [if_pos hinit]
  exact h

/-- Witness for C1: removing the comment from the concrete array queues its
link with the name set, a fresh `oldParent = owner` and `newParent = null`. -/
theorem claim1_witness :
    ∃ l, lookupA (arrayContentWillChange fixState fixArray 0 1 0).1.links (5, 1) = some l ∧
      l.hasManyName = some "comments" ∧
      l.newParent = some none ∧
      l.oldParent = some (specOldV 1 (lookupA fixState.links (5, 1))) ∧
      (5, 1) ∈ pendingOf (arrayContentWillChange fixState fixArray 0 1 0).2 :=
  claim1_willChange_links fixState fixArray 0 1 0 (fun _ => 5) rfl rfl
    (fun k hk => by
      have hz : k = 0 := Nat.lt_one_iff.mp hk
      subst hz
      rfl)
    0 (by decide)

/-- Claim C4 (refuting theorem): a structural-mutation notification delivered
while `_initted` is still unset leaves the pre-change hook a pure delegation,
but the post-change hook is not a no-op: it unconditionally runs
`this._linksToSync.forEach`, and during the initialization window
`_linksToSync` is still `undefined`, so the hook faults instead of
delegating. -/
theorem claim4_preInit_notification :
    arrayContentWillChange fixState preInitArray 0 0 1 = (fixState, preInitArray) ∧
    arrayContentDidChange fixState preInitArray 0 0 1 = .error undefinedPendingSetMsg :=
  ⟨rfl, rfl⟩

/-- Claim C5: with a configured `elementType` and an added record whose
constructor differs, the assertion in `replaceContent`'s `added.map` fires
and the whole call aborts with that error — before the base splice, so no
state (content change or link bookkeeping) is produced. -/
theorem claim5_replaceContent_typeAssert (st : DSState) (arr : ManyArray)
    (index removed : Nat) (added : List Nat) (recOf : Nat → Record) (t : Nat)
    (htype : arr.type = some t)
    (hrec : ∀ r ∈ added, lookupA st.records r = some (recOf r))
    (hbad : ∃ r ∈ added, (recOf r).ctor ≠ t) :
    mapAddedRecords st arr.type added = .error wrongTypeMsg ∧
    replaceContent st arr index removed added = .error wrongTypeMsg := by
  have hmap : mapAddedRecords st arr.type added = .error wrongTypeMsg := by
    rw [htype]
    exact mapAddedRecords_err st t added recOf hrec hbad
  refine ⟨hmap, ?_⟩
  unfold replaceContent
  rw [hmap]

/-- Witness for C5: inserting the comment (type 2) into an array constrained
to type 3 aborts with the assertion error. -/
theorem claim5_witness :
    mapAddedRecords fixState wrongTypeArray.type [5] = .error wrongTypeMsg ∧
    replaceContent fixState wrongTypeArray 0 0 [5] = .error wrongTypeMsg :=
  claim5_replaceContent_typeAssert fixState wrongTypeArray 0 0 [5]
    (fun _ => commentRecord) 3 rfl
    (fun r hr => by
      have hz : r = 5 := List.mem_singleton.mp hr
      subst hz
      rfl)
    ⟨5, List.mem_singleton.mpr rfl, by decide⟩

/-- Claim C7: `removeFromContent` removes the child's identifier from
`content` without touching the global state (no link queued, no
reconciliation event, every belongs-to field unchanged) and without touching
the pending set; `addToContent` likewise adds the identifier directly. -/
theorem claim7_directContent (st : DSState) (arr : ManyArray) (rid : Nat)
    (rec : Record) (hrec : lookupA st.records rid = some rec) :
    (removeFromContent st arr rid).1 = st ∧
    (removeFromContent st arr rid).1.syncLog = st.syncLog ∧
    (∀ r n, lookupAttr (removeFromContent st arr rid).1 r n = lookupAttr st r n) ∧
    (removeFromContent st arr rid).2.linksToSync = arr.linksToSync ∧
    (removeFromContent st arr rid).2.content =
      arr.content.filter (fun cid => cid ≠ rec.clientId) ∧
    (addToContent st arr rid).1 = st ∧
    (addToContent st arr rid).2.linksToSync = arr.linksToSync ∧
    (addToContent st arr rid).2.content =
      (if rec.clientId ∈ arr.content then arr.content else arr.content ++ [rec.clientId]) := by
  unfold removeFromContent addToContent
  rw [hrec]
  exact ⟨rfl, rfl, fun r n => rfl, rfl, rfl, rfl, rfl, rfl⟩

/-- Witness for C7: removing the comment from the concrete array empties
`content` while the comment's `post` field is untouched. -/
theorem claim7_witness :
    (removeFromContent fixState fixArray 5).1 = fixState ∧
    (removeFromContent fixState fixArray 5).1.syncLog = fixState.syncLog ∧
    (∀ r n, lookupAttr (removeFromContent fixState fixArray 5).1 r n = lookupAttr fixState r n) ∧
    (removeFromContent fixState fixArray 5).2.linksToSync = fixArray.linksToSync ∧
    (removeFromContent fixState fixArray 5).2.content =
      fixArray.content.filter (fun cid => cid ≠ commentRecord.clientId) ∧
    (addToContent fixState fixArray 5).1 = fixState ∧
    (addToContent fixState fixArray 5).2.linksToSync = fixArray.linksToSync ∧
    (addToContent fixState fixArray 5).2.content =
      (if commentRecord.clientId ∈ fixArray.content then fixArray.content
       else fixArray.content ++ [commentRecord.clientId]) :=
  claim7_directContent fixState fixArray 5 commentRecord rfl

/-- Claim C8: `assignInverse` looks up the inverse belongs-to field; when
declared it returns the field's previous value and writes `owner` into it
exactly when the previous value differs from `owner`; when no inverse field
is declared it writes nothing and returns `undefined`. -/
theorem claim8_assignInverse (st : DSState) (arr : ManyArray) (rid : Nat) :
    (∀ n, inverseNameForOf st rid arr.owner = some n →
      ((assignInverse st arr rid).1 = lookupAttr st rid n ∧
       (lookupAttr st rid n = some (some arr.owner) → (assignInverse st arr rid).2 = st) ∧
       (lookupAttr st rid n ≠ some (some arr.owner) →
         (assignInverse st arr rid).2 = setAttr st rid n (some arr.owner) ∧
         lookupAttr (assignInverse st arr rid).2 rid n = some (some arr.owner)))) ∧
    (inverseNameForOf st rid arr.owner = none → assignInverse st arr rid = (none, st)) := by
  constructor
  · intro n hn
    obtain ⟨r, hr⟩ := inverseNameForOf_records st rid arr.owner n hn
    by_cases hcur : lookupAttr st rid n = some (some arr.owner)
    · have hA : assignInverse st arr rid = (lookupAttr st rid n, st) := by
        simp only [assignInverse, hn]
        rw [if_pos hcur]
      rw [hA]
      exact ⟨rfl, fun _ => rfl, fun hne => absurd hcur hne⟩
    · have hA : assignInverse st arr rid =
          (lookupAttr st rid n, setAttr st rid n (some arr.owner)) := by
        simp only [assignInverse, hn]
        rw [if_neg hcur]
      rw [hA]
      exact ⟨rfl, fun he => absurd he hcur,
        fun _ => ⟨rfl, lookupAttr_setAttr_self st rid n (some arr.owner) r hr⟩⟩
  · intro hn
    simp [assignInverse, hn]

/-- Witness for C8: the comment's `post` points at record 0, so assigning the
inverse towards owner 1 returns the old value and rewrites the field to 1. -/
theorem claim8_witness :
    (assignInverse fixState fixArray 5).1 = lookupAttr fixState 5 "post" ∧
    (assignInverse fixState fixArray 5).2 = setAttr fixState 5 "post" (some 1) ∧
    lookupAttr (assignInverse fixState fixArray 5).2 5 "post" = some (some 1) := by
  have h := ((claim8_assignInverse fixState fixArray 5).1 "post" (by decide)).2.2 (by decide)
  exact ⟨((claim8_assignInverse fixState fixArray 5).1 "post" (by decide)).1, h.1, h.2⟩

/-- Claim C9: `removeInverse` clears the child's inverse belongs-to field to
null exactly when an inverse field is declared and currently equals `owner`;
when no field is declared or it points elsewhere, the state is returned
unchanged (a silent no-op). -/
theorem claim9_removeInverse (st : DSState) (arr : ManyArray) (rid : Nat) :
    (∀ n, inverseNameForOf st rid arr.owner = some n →
      ((lookupAttr st rid n = some (some arr.owner) →
          removeInverse st arr rid = setAttr st rid n none ∧
          lookupAttr (removeInverse st arr rid) rid n = some none) ∧
       (lookupAttr st rid n ≠ some (some arr.owner) → removeInverse st arr rid = st))) ∧
    (inverseNameForOf st rid arr.owner = none → removeInverse st arr rid = st) := by
  constructor
  · intro n hn
    obtain ⟨r, hr⟩ := inverseNameForOf_records st rid arr.owner n hn
    constructor
    · intro hcur
      have hA : removeInverse st arr rid = setAttr st rid n none := by
        simp only [removeInverse, hn]
        rw [if_pos hcur]
      rw [hA]
      exact ⟨rfl, lookupAttr_setAttr_self st rid n none r hr⟩
    · intro hcur
      simp only [removeInverse, hn]
      rw [if_neg hcur]
  · intro hn
    simp [removeInverse, hn]

/-- Witness for C9: the comment's `post` points at record 0, not at owner 1,
so `removeInverse` is a silent no-op on the concrete state. -/
theorem claim9_witness :
    removeInverse fixState fixArray 5 = fixState :=
  ((claim9_removeInverse fixState fixArray 5).1 "post" (by decide)).2 (by decide)

/-- Claim C10: `addToContent` inserts through set-style `addObject`, so a
child whose identifier is already present leaves `content` unchanged, and the
direct insertion path never introduces a duplicate identifier. -/
theorem claim10_addToContent_idempotent (st : DSState) (arr : ManyArray)
    (rid : Nat) (rec : Record) (hrec : lookupA st.records rid = some rec) :
    (rec.clientId ∈ arr.content → (addToContent st arr rid).2.content = arr.content) ∧
    (arr.content.Nodup → (addToContent st arr rid).2.content.Nodup) := by
  unfold addToContent
  rw [hrec]
  constructor
  · intro hmem
    simp [hmem]
  · intro hnd
    by_cases hmem : rec.clientId ∈ arr.content
    · simpa [hmem] using hnd
    · simp only [if_neg hmem]
      simp [List.nodup_append, hnd, hmem]

/-- Witness for C10: the comment's client id 10 is already in `content`, so
the direct add leaves the list unchanged, and no-duplicates is preserved. -/
theorem claim10_witness :
    ((10 : Nat) ∈ fixArray.content → (addToContent fixState fixArray 5).2.content = fixArray.content) ∧
    (fixArray.content.Nodup → (addToContent fixState fixArray 5).2.content.Nodup) :=
  claim10_addToContent_idempotent fixState fixArray 5 commentRecord rfl

/-! ### Flush-event helpers and `arrayContentDidChange` inversion -/

theorem eventFor_of_lookup (st : DSState) (arr : ManyArray) (k : Nat × Nat)
    (l : Link) (h : lookupA st.links k = some l) :
    eventFor st arr k =
      some { child := k.1, parent := k.2, link := l, contentAtSync := arr.content } := by
  unfold eventFor
  rw [h]
  rfl

theorem eventFor_content (st : DSState) (arr : ManyArray) (k : Nat × Nat)
    (e : SyncEvent) (h : eventFor st arr k = some e) :
    e.contentAtSync = arr.content := by
  unfold eventFor at h
  cases hl : lookupA st.links k with
  | none =>
    rw [hl] at h
    exact Option.noConfusion h
  | some l =>
    rw [hl] at h
    rw [← Option.some.inj h]

theorem didChange_ok_pending (st : DSState) (arr : ManyArray)
    (index removed added : Nat) (st' : DSState) (arr' : ManyArray)
    (hok : arrayContentDidChange st arr index removed added = .ok (st', arr')) :
    arr'.linksToSync = some [] := by
  unfold arrayContentDidChange at hok
  cases hls : (didChangeLoop st arr index added).2.linksToSync with
  | none =>
    rw [hls] at hok
    exact Except.noConfusion hok
  | some pend =>
    rw [hls] at hok
    simp only [Except.ok.injEq, Prod.mk.injEq] at hok
    obtain ⟨h1, h2⟩ := hok
    rw [← h2]

/-- Claim C3: immediately after any public structural mutation returns
successfully, the pending-link set is empty — every queued link was flushed
in the post-change hook and the set was cleared. -/
theorem claim3_pendingCleared (st : DSState) (arr : ManyArray)
    (index removed : Nat) (added : List Nat) (st' : DSState) (arr' : ManyArray)
    (hok : replaceContent st arr index removed added = .ok (st', arr')) :
    arr'.linksToSync = some [] := by
  unfold replaceContent at hok
  cases hmap : mapAddedRecords st arr.type added with
  | error e =>
    rw [hmap] at hok
    exact Except.noConfusion hok
  | ok cids =>
    rw [hmap] at hok
    exact didChange_ok_pending _ _ index removed cids.length st' arr' hok

/-- An initialized array with a stale pending entry, used to show the set is
cleared by the next mutation. -/
def dirtyPendingArray : ManyArray := { fixArray with linksToSync := some [(5, 1)] }

/-- Witness for C3: a mutation on an array with a stale pending entry returns
with the pending set cleared. -/
theorem claim3_witness : fixArray.linksToSync = some [] :=
  claim3_pendingCleared fixState dirtyPendingArray 0 0 [] fixState fixArray rfl

/-! ### Single-touch evaluation lemmas -/

theorem touchRemoved_eval_fresh (o : Nat) (nm : String) (st : DSState)
    (arr : ManyArray) (pos c : Nat) (hres : objectAt st arr pos = some c)
    (hnol : lookupA st.links (c, o) = none) :
    touchRemoved o nm (st, arr) pos =
      ({ st with links := (updateA (updateA st.links (c, o) newLink) (c, o)
          { hasManyName := some nm, oldParent := some (some o), newParent := some none }) },
       addPending arr (c, o)) := by
  unfold touchRemoved
  rw [show objectAt (st, arr).1 (st, arr).2 pos = some c from hres]
  simp [forChildAndParent, hnol, setLink, newLink]

theorem touchAdded_eval_found (o : Nat) (nm : String) (st : DSState)
    (arr : ManyArray) (pos c : Nat) (l : Link)
    (hres : objectAt st arr pos = some c)
    (hl : lookupA st.links (c, o) = some l) :
    touchAdded o nm (st, arr) pos =
      ({ st with links := (updateA st.links (c, o)
          { hasManyName := some nm, oldParent := l.oldParent, newParent := some (some o) }) },
       addPending arr (c, o)) := by
  unfold touchAdded
  rw [show objectAt (st, arr).1 (st, arr).2 pos = some c from hres]
  simp [forChildAndParent, hl, setLink]

/-- Claim C6: a single structural edit that removes a child and re-adds the
same child resolves both touches to the one memoized link keyed (child,
owner), collapses them to one pending entry, leaves that link with
`oldParent = owner` (set once, in phase 1) and `newParent = owner` (set in
phase 2), and reconciles it exactly once. -/
theorem claim6_removeReadd (st : DSState) (arr : ManyArray) (index c : Nat)
    (rec : Record)
    (hinit : arr.initted = true)
    (hpend : arr.linksToSync = some [])
    (hres : objectAt st arr index = some c)
    (hrec : lookupA st.records c = some rec)
    (hcid : lookupA st.clientIdIndex rec.clientId = some c)
    (htype : arr.type = none ∨ arr.type = some rec.ctor)
    (hnol : lookupA st.links (c, arr.owner) = none) :
    ∃ st' arr', replaceContent st arr index 1 [c] = .ok (st', arr') ∧
      ∃ l, lookupA st'.links (c, arr.owner) = some l ∧
        l.hasManyName = some arr.name ∧
        l.oldParent = some (some arr.owner) ∧
        l.newParent = some (some arr.owner) ∧
        st'.syncLog.drop st.syncLog.length =
          [{ child := c, parent := arr.owner, link := l, contentAtSync := arr'.content }] := by
  have hmap : mapAddedRecords st arr.type [c] = .ok [rec.clientId] := by
    have h := mapAddedRecords_ok st arr.type [c] (fun _ => rec)
      (fun r hr => by rw [List.mem_singleton.mp hr]; exact hrec)
      (fun r hr => htype)
    simpa using h
  have hW : arrayContentWillChange st arr index 1 1 =
      ({ st with links := (updateA (updateA st.links (c, arr.owner) newLink) (c, arr.owner) { hasManyName := some arr.name, oldParent := some (some arr.owner), newParent := some none }) },
       { arr with linksToSync := some [(c, arr.owner)] }) := by
    unfold arrayContentWillChange
    rw [if_pos hinit]
    simp only [List.range_succ, List.range_zero, List.nil_append, List.map_cons,
      List.map_nil, Nat.add_zero, List.foldl_cons, List.foldl_nil]
    rw [touchRemoved_eval_fresh arr.owner arr.name st arr index c hres hnol]
    unfold addPending
    rw [hpend]
    simp [orderedSetAdd]
  have hidx : index < arr.content.length := by
    by_contra hgt
    push_neg at hgt
    unfold objectAt at hres
    rw [List.getElem?_eq_none hgt] at hres
    exact Option.noConfusion hres
  have hspl : (spliceList arr.content index 1 [rec.clientId])[index]? = some rec.clientId := by
    have h := spliceList_getElem_added arr.content index 1 [rec.clientId] 0
      (Nat.le_of_lt hidx) (by simp)
    simpa using h
  have hA1 : (afterSplice st arr index 1 [rec.clientId]).1 =
      { st with links := (updateA (updateA st.links (c, arr.owner) newLink) (c, arr.owner) { hasManyName := some arr.name, oldParent := some (some arr.owner), newParent := some none }) } := by
    unfold afterSplice
    simp only [List.length_singleton]
    rw [hW]
  have hA2 : (afterSplice st arr index 1 [rec.clientId]).2 =
      { arr with content := spliceList arr.content index 1 [rec.clientId], linksToSync := some [(c, arr.owner)] } := by
    unfold afterSplice
    simp only [List.length_singleton]
    rw [hW]
  have hres3 : objectAt
      { st with links := (updateA (updateA st.links (c, arr.owner) newLink) (c, arr.owner) { hasManyName := some arr.name, oldParent := some (some arr.owner), newParent := some none }) }
      { arr with content := spliceList arr.content index 1 [rec.clientId], linksToSync := some [(c, arr.owner)] } index = some c := by
    unfold objectAt
    rw [show ({ arr with content := spliceList arr.content index 1 [rec.clientId], linksToSync := some [(c, arr.owner)] } : ManyArray).content = spliceList arr.content index 1 [rec.clientId] from rfl]
    rw [hspl]
    exact hcid
  have hlookW : lookupA ({ st with links := (updateA (updateA st.links (c, arr.owner) newLink) (c, arr.owner) { hasManyName := some arr.name, oldParent := some (some arr.owner), newParent := some none }) } : DSState).links (c, arr.owner) =
      some { hasManyName := some arr.name, oldParent := some (some arr.owner), newParent := some none } :=
    lookupA_updateA_self _ _ _
  have hD : didChangeLoop
      { st with links := (updateA (updateA st.links (c, arr.owner) newLink) (c, arr.owner) { hasManyName := some arr.name, oldParent := some (some arr.owner), newParent := some none }) }
      { arr with content := spliceList arr.content index 1 [rec.clientId], linksToSync := some [(c, arr.owner)] } index 1 =
      ({ st with links := (updateA (updateA (updateA st.links (c, arr.owner) newLink) (c, arr.owner) { hasManyName := some arr.name, oldParent := some (some arr.owner), newParent := some none }) (c, arr.owner) { hasManyName := some arr.name, oldParent := some (some arr.owner), newParent := some (some arr.owner) }) },
       { arr with content := spliceList arr.content index 1 [rec.clientId], linksToSync := some [(c, arr.owner)] }) := by
    unfold didChangeLoop
    rw [if_pos (show ({ arr with content := spliceList arr.content index 1 [rec.clientId], linksToSync := some [(c, arr.owner)] } : ManyArray).initted = true from hinit)]
    simp only [List.range_succ, List.range_zero, List.nil_append, List.map_cons,
      List.map_nil, Nat.add_zero, List.foldl_cons, List.foldl_nil]
    rw [show ({ arr with content := spliceList arr.content index 1 [rec.clientId], linksToSync := some [(c, arr.owner)] } : ManyArray).owner = arr.owner from rfl]
    rw [show ({ arr with content := spliceList arr.content index 1 [rec.clientId], linksToSync := some [(c, arr.owner)] } : ManyArray).name = arr.name from rfl]
    rw [touchAdded_eval_found arr.owner arr.name _ _ index c _ hres3 hlookW]
    unfold addPending
    simp [orderedSetAdd]
  refine ⟨{ st with links := (updateA (updateA (updateA st.links (c, arr.owner) newLink) (c, arr.owner) { hasManyName := some arr.name, oldParent := some (some arr.owner), newParent := some none }) (c, arr.owner) { hasManyName := some arr.name, oldParent := some (some arr.owner), newParent := some (some arr.owner) }), syncLog := (st.syncLog ++ [{ child := c, parent := arr.owner, link := { hasManyName := some arr.name, oldParent := some (some arr.owner), newParent := some (some arr.owner) }, contentAtSync := spliceList arr.content index 1 [rec.clientId] }]) },
    { arr with content := spliceList arr.content index 1 [rec.clientId], linksToSync := some [] },
    ?_,
    { hasManyName := some arr.name, oldParent := some (some arr.owner), newParent := some (some arr.owner) },
    ?_, rfl, rfl, rfl, ?_⟩
  · unfold replaceContent
    rw [hmap]
    show arrayContentDidChange (afterSplice st arr index 1 [rec.clientId]).1
        (afterSplice st arr index 1 [rec.clientId]).2 index 1 1 = _
    rw [hA1, hA2]
    unfold arrayContentDidChange
    rw [hD]
    simp only [List.foldl_cons, List.foldl_nil]
    unfold syncLink
    rw [show lookupA ({ st with links := (updateA (updateA (updateA st.links (c, arr.owner) newLink) (c, arr.owner) { hasManyName := some arr.name, oldParent := some (some arr.owner), newParent := some none }) (c, arr.owner) { hasManyName := some arr.name, oldParent := some (some arr.owner), newParent := some (some arr.owner) }) } : DSState).links (c, arr.owner) = some { hasManyName := some arr.name, oldParent := some (some arr.owner), newParent := some (some arr.owner) } from lookupA_updateA_self _ _ _]
  · exact lookupA_updateA_self _ _ _
  · show ((st.syncLog ++ [({ child := c, parent := arr.owner, link := { hasManyName := some arr.name, oldParent := some (some arr.owner), newParent := some (some arr.owner) }, contentAtSync := spliceList arr.content index 1 [rec.clientId] } : SyncEvent)]).drop st.syncLog.length) = _
    rw [List.drop_left]

/-- Witness for C6: removing the comment at position 0 and re-adding it in
the same edit yields one link with `oldParent = owner` and
`newParent = owner`, synced exactly once. -/
theorem claim6_witness :
    ∃ st' arr', replaceContent fixState fixArray 0 1 [5] = .ok (st', arr') ∧
      ∃ l, lookupA st'.links (5, 1) = some l ∧
        l.hasManyName = some "comments" ∧
        l.oldParent = some (some 1) ∧
        l.newParent = some (some 1) ∧
        st'.syncLog.drop fixState.syncLog.length =
          [{ child := 5, parent := 1, link := l, contentAtSync := arr'.content }] :=
  claim6_removeReadd fixState fixArray 0 5 commentRecord rfl rfl rfl rfl rfl
    (Or.inr rfl) rfl

/-- Claim C2: for a structural edit adding elements, the post-change hook —
running after the splice — obtains-or-creates each added child's link, sets
`hasManyName`, sets `newParent = owner` unconditionally, queues it, and only
after processing every addition reconciles the pending links, so each
reconciliation event of the edit records the array's final post-edit
membership. -/
theorem claim2_didChange_syncFinal (st : DSState) (arr : ManyArray)
    (index removed : Nat) (added : List Nat) (recOf : Nat → Record)
    (st' : DSState) (arr' : ManyArray)
    (hinit : arr.initted = true)
    (halloc : arr.linksToSync.isSome)
    (hrec : ∀ r ∈ added, lookupA st.records r = some (recOf r))
    (htype : ∀ r ∈ added, arr.type = none ∨ arr.type = some (recOf r).ctor)
    (hcid : ∀ r ∈ added, lookupA st.clientIdIndex (recOf r).clientId = some r)
    (hidx : index ≤ arr.content.length)
    (hok : replaceContent st arr index removed added = .ok (st', arr')) :
    (∀ k, (hk : k < added.length) →
      ∃ l, lookupA st'.links (added[k], arr.owner) = some l ∧
        l.hasManyName = some arr.name ∧
        l.newParent = some (some arr.owner) ∧
        ({ child := added[k], parent := arr.owner, link := l,
           contentAtSync := arr'.content } : SyncEvent) ∈
          st'.syncLog.drop st.syncLog.length) ∧
    (∀ e ∈ st'.syncLog.drop st.syncLog.length, e.contentAtSync = arr'.content) := by
  have hmap := mapAddedRecords_ok st arr.type added recOf hrec htype
  unfold replaceContent at hok
  rw [hmap] at hok
  have hok2 : arrayContentDidChange
      (afterSplice st arr index removed (added.map (fun r => (recOf r).clientId))).1
      (afterSplice st arr index removed (added.map (fun r => (recOf r).clientId))).2
      index removed (added.map (fun r => (recOf r).clientId)).length = .ok (st', arr') := hok
  clear hok
  obtain ⟨hf1, hf2, hf3, hf4, hf5, hf6, hf7, hf8, hf9⟩ :=
    willChange_sameFrame st arr index removed (added.map (fun r => (recOf r).clientId)).length
  have hlen : (added.map (fun r => (recOf r).clientId)).length = added.length :=
    List.length_map _ _
  have hA1cid : (afterSplice st arr index removed (added.map (fun r => (recOf r).clientId))).1.clientIdIndex = st.clientIdIndex := hf2
  have hA1log : (afterSplice st arr index removed (added.map (fun r => (recOf r).clientId))).1.syncLog = st.syncLog := hf3
  have hA2owner : (afterSplice st arr index removed (added.map (fun r => (recOf r).clientId))).2.owner = arr.owner := hf4
  have hA2name : (afterSplice st arr index removed (added.map (fun r => (recOf r).clientId))).2.name = arr.name := hf5
  have hA2init : (afterSplice st arr index removed (added.map (fun r => (recOf r).clientId))).2.initted = true := hf8.trans hinit
  have hA2some : (afterSplice st arr index removed (added.map (fun r => (recOf r).clientId))).2.linksToSync.isSome = true := hf9.trans halloc
  have hA2content : (afterSplice st arr index removed (added.map (fun r => (recOf r).clientId))).2.content =
      spliceList arr.content index removed (added.map (fun r => (recOf r).clientId)) := by
    show spliceList (arrayContentWillChange st arr index removed
        (added.map (fun r => (recOf r).clientId)).length).2.content index removed
        (added.map (fun r => (recOf r).clientId)) = _
    rw [hf7]
  have hobj : ∀ k (hk : k < added.length), objectAt
      (afterSplice st arr index removed (added.map (fun r => (recOf r).clientId))).1
      (afterSplice st arr index removed (added.map (fun r => (recOf r).clientId))).2
      (index + k) = some added[k] := by
    intro k hk
    have hk2 : k < (added.map (fun r => (recOf r).clientId)).length := by
      rw [hlen]
      exact hk
    have hg : (afterSplice st arr index removed (added.map (fun r => (recOf r).clientId))).2.content[index + k]? =
        some ((added.map (fun r => (recOf r).clientId))[k]) := by
      rw [hA2content]
      exact spliceList_getElem_added arr.content index removed
        (added.map (fun r => (recOf r).clientId)) k hidx hk2
    unfold objectAt
    rw [hg]
    show lookupA (afterSplice st arr index removed (added.map (fun r => (recOf r).clientId))).1.clientIdIndex
        ((added.map (fun r => (recOf r).clientId))[k]) = _
    rw [hA1cid]
    have hgm : (added.map (fun r => (recOf r).clientId))[k] =
        (recOf added[k]).clientId := by
      simp
    rw [hgm]
    refine hcid added[k] ?_
    exact List.getElem_mem hk
  have hQmain : ∀ k (hk : k < added.length),
      DoneA (afterSplice st arr index removed (added.map (fun r => (recOf r).clientId))).2.owner
        (afterSplice st arr index removed (added.map (fun r => (recOf r).clientId))).2.name
        added[k]
        (didChangeLoop (afterSplice st arr index removed (added.map (fun r => (recOf r).clientId))).1
          (afterSplice st arr index removed (added.map (fun r => (recOf r).clientId))).2
          index (added.map (fun r => (recOf r).clientId)).length) := by
    intro k hk
    unfold didChangeLoop
    rw [if_pos hA2init]
    refine foldl_touchAdded_main _ _ _ _ (index + k) _ ?_ (hobj k hk) hA2some
    refine List.mem_map.mpr ⟨k, List.mem_range.mpr ?_, rfl⟩
    rw [hlen]
    exact hk
  obtain ⟨g1, g2, g3, g4, g5, g6, g7, g8, g9⟩ := didChangeLoop_sameFrame
    (afterSplice st arr index removed (added.map (fun r => (recOf r).clientId))).1
    (afterSplice st arr index removed (added.map (fun r => (recOf r).clientId))).2
    index (added.map (fun r => (recOf r).clientId)).length
  unfold arrayContentDidChange at hok2
  cases hls : (didChangeLoop (afterSplice st arr index removed (added.map (fun r => (recOf r).clientId))).1
      (afterSplice st arr index removed (added.map (fun r => (recOf r).clientId))).2
      index (added.map (fun r => (recOf r).clientId)).length).2.linksToSync with
  | none =>
    rw [hls] at g9
    rw [hA2some] at g9
    exact absurd g9.symm (by simp)
  | some pend =>
    rw [hls] at hok2
    simp only [Except.ok.injEq, Prod.mk.injEq] at hok2
    obtain ⟨hst', harr'⟩ := hok2
    have hstlinks : st'.links = (didChangeLoop (afterSplice st arr index removed (added.map (fun r => (recOf r).clientId))).1
        (afterSplice st arr index removed (added.map (fun r => (recOf r).clientId))).2
        index (added.map (fun r => (recOf r).clientId)).length).1.links := by
      rw [← hst']
      exact flush_links _ pend _
    have hdrop : st'.syncLog.drop st.syncLog.length = pend.filterMap (fun k2 =>
        eventFor (didChangeLoop (afterSplice st arr index removed (added.map (fun r => (recOf r).clientId))).1
            (afterSplice st arr index removed (added.map (fun r => (recOf r).clientId))).2
            index (added.map (fun r => (recOf r).clientId)).length).1
          (didChangeLoop (afterSplice st arr index removed (added.map (fun r => (recOf r).clientId))).1
            (afterSplice st arr index removed (added.map (fun r => (recOf r).clientId))).2
            index (added.map (fun r => (recOf r).clientId)).length).2 k2) := by
      rw [← hst', flush_syncLog, g3, hA1log, List.drop_left]
    have hc' : arr'.content = (didChangeLoop (afterSplice st arr index removed (added.map (fun r => (recOf r).clientId))).1
        (afterSplice st arr index removed (added.map (fun r => (recOf r).clientId))).2
        index (added.map (fun r => (recOf r).clientId)).length).2.content := by
      rw [← harr']
    constructor
    · intro k hk
      obtain ⟨l, hlook, hnm, hnew, hpmem⟩ := hQmain k hk
      rw [hA2owner] at hlook hnew hpmem
      rw [hA2name] at hnm
      unfold pendingOf at hpmem
      rw [hls] at hpmem
      simp only [Option.getD_some] at hpmem
      refine ⟨l, ?_, hnm, hnew, ?_⟩
      · rw [hstlinks]
        exact hlook
      · rw [hdrop, hc']
        refine List.mem_filterMap.mpr ⟨(added[k], arr.owner), hpmem, ?_⟩
        exact eventFor_of_lookup _ _ _ l hlook
    · intro e he
      rw [hdrop] at he
      obtain ⟨k2, hk2mem, hk2ev⟩ := List.mem_filterMap.mp he
      rw [hc']
      exact eventFor_content _ _ k2 e hk2ev

/-- An initialized, empty `comments` array owned by record 1. -/
def emptyArray : ManyArray :=
  { owner := 1, name := "comments", type := some 2, content := [],
    initted := true, linksToSync := some [] }

/-- The global state after inserting the comment into the empty array: the
memoized link carries `newParent = owner` and one reconciliation event was
logged against the final content. -/
def stAfterInsert : DSState :=
  { fixState with
      links := [((5, 1), { hasManyName := some "comments", oldParent := none,
                           newParent := some (some 1) })],
      syncLog := [{ child := 5, parent := 1,
                    link := { hasManyName := some "comments", oldParent := none,
                              newParent := some (some 1) },
                    contentAtSync := [10] }] }

/-- The array after inserting the comment into the empty array. -/
def arrAfterInsert : ManyArray := { emptyArray with content := [10] }

/-- Witness for C2: inserting the comment into the empty array queues and
reconciles its link with `newParent = owner`, and the logged reconciliation
observes the final content `[10]`. -/
theorem claim2_witness :
    ∃ l, lookupA stAfterInsert.links (5, 1) = some l ∧
      l.hasManyName = some "comments" ∧
      l.newParent = some (some 1) ∧
      ({ child := 5, parent := 1, link := l,
         contentAtSync := arrAfterInsert.content } : SyncEvent) ∈
        stAfterInsert.syncLog.drop fixState.syncLog.length :=
  (claim2_didChange_syncFinal fixState emptyArray 0 0 [5] (fun _ => commentRecord)
    stAfterInsert arrAfterInsert rfl rfl
    (fun r hr => by
      rw [List.mem_singleton.mp hr]
      rfl)
    (fun r hr => Or.inr (by rw [List.mem_singleton.mp hr]; rfl))
    (fun r hr => by
      rw [List.mem_singleton.mp hr]
      rfl)
    (Nat.zero_le _) rfl).1 0 (by decide)
